import Mathlib

/-!
Verification of the higgs_inference point-by-point / histogram estimation
pipeline (src/higgs_inference/strategies/point_by_point.py,
src/higgs_inference/strategies/histograms.py, src/higgs_inference/experiments.py).

The numeric model: a numpy scalar that may be non-finite (NaN or an
infinity) is embedded as an `Option ℝ`, where `none` stands for any
non-finite value.  Purely-finite computations use `ℝ` where the source
computes transcendentals (log, exp, pi) and `ℚ` elsewhere, so that the
structural definitions stay executable and witnesses can be checked by
evaluation.  Imperative loops are embedded as structural recursions over
the iteration list, with each loop body translated branch by branch.
-/

namespace HiggsInference

/-- A numpy scalar: `some x` is a finite real, `none` any non-finite value
(NaN or an infinity).  We collapse all non-finite values into one
sentinel; the claims under study only distinguish finite from non-finite. -/
abbrev NpVal := Option ℝ

/-- Embedding of elementwise `np.exp`.  `np.exp` of a finite real is
finite; `np.exp` of NaN or +inf is non-finite, and `np.exp(-inf) = 0`
whose subsequent logarithm is again non-finite, so collapsing it into the
sentinel is faithful for finiteness tracking through `log`. -/
noncomputable def npExp (v : NpVal) : NpVal := v.map Real.exp

/-- Embedding of elementwise `np.log`: finite for a positive finite input,
non-finite for zero (`-inf`), negative (NaN), or non-finite input. -/
noncomputable def npLog (v : NpVal) : NpVal :=
  match v with
  | none => none
  | some x => if 0 < x then some (Real.log x) else none

/-- Embedding of `np.sum` over a 1-D array: a non-finite term makes the
sum non-finite (inf + finite = inf, inf - inf = NaN, NaN propagates). -/
noncomputable def npSum (l : List NpVal) : NpVal :=
  if l.all Option.isSome then some ((l.map (fun v => v.getD 0)).sum) else none

/-- Scalar multiplication on a numpy value; a non-finite factor stays
non-finite. -/
noncomputable def npScaleMul (c : ℝ) (v : NpVal) : NpVal := v.map (fun x => c * x)

/-- Embedding of `np.all(np.isfinite(a))` for a 1-D array. -/
def npAllFinite (l : List NpVal) : Bool := l.all Option.isSome

/-! ## Expected LLR formula (claim C3)

Call sites embedded:
* histograms.py line 283:
  `expected_llr.append(- 2. * settings.n_expected_events / n_events_test * np.sum(log_r_hat_test))`
* point_by_point.py line 157 (regression branch, with `this_r = np.exp(prediction)`):
  `expected_llr.append(- 2. * settings.n_expected_events / n_events_test * np.sum(np.log(this_r)))`
* point_by_point.py line 257 (carl branch, `this_r` from `ratio.predict`):
  `expected_llr.append(- 2. * settings.n_expected_events / n_events_test * np.sum(np.log(this_r)))`
-/

/-- The spec's formula: expected LLR
`= -2 * (N_expected / N_test) * sum(log r_hat_test)`. -/
noncomputable def expectedLLRFormula (nExp nTest : ℝ) (rHat : List ℝ) : ℝ :=
  -2 * nExp / nTest * (rHat.map Real.log).sum

/-- Modelled from the spec: `r_from_s` (higgs_inference/various/utils.py, not
under src/) converts a probability-like score `s` into the ratio
`r = s / (1 - s)`, after clipping `s` away from the boundaries 0 and 1
by a guard `eps`. -/
noncomputable def rFromS (eps s : ℝ) : ℝ :=
  min (max s eps) (1 - eps) / (1 - min (max s eps) (1 - eps))

/-- Embedding of histograms.py lines 278 and 283: the appended expected
LLR in the histogram pipeline, computed from the scores `s_hat_test` via
`log_r_hat_test = np.log(r_from_s(s_hat_test))`. -/
noncomputable def histoExpectedLLR (eps nExp nTest : ℝ) (sHatTest : List ℝ) : ℝ :=
  -2 * nExp / nTest * (sHatTest.map (fun s => Real.log (rFromS eps s))).sum

/-- Embedding of point_by_point.py lines 152 and 157: the appended
expected LLR in the regression pipeline, where `this_r = np.exp(prediction)`. -/
noncomputable def regressionExpectedLLR (nExp nTest : ℝ) (prediction : List ℝ) : ℝ :=
  -2 * nExp / nTest * ((prediction.map Real.exp).map Real.log).sum

/-- Embedding of point_by_point.py line 257: the appended expected LLR in
the carl pipeline, where `this_r` is the ratio returned by `ratio.predict`. -/
noncomputable def carlExpectedLLR (nExp nTest : ℝ) (thisR : List ℝ) : ℝ :=
  -2 * nExp / nTest * (thisR.map Real.log).sum

/-! ## Calibration mixture (claim C4)

Embedding of point_by_point.py lines 265-273: the calibration mixture is
built from the transformed calibration sample `X_calibration_transformed`
(N rows) by slice assignment into arrays of 2N rows: features are two
stacked copies of the sample, labels are 0 on the first half and 1 on
the second, weights are `weights_calibration[t]` on the first half and
`weights_calibration[theta1]` on the second.  Event rows are modelled
over `ℚ` (exact stand-in for the float features).
-/

/-- Embedding of the calibration-mixture construction
(point_by_point.py lines 265-273).  `xCal` is the transformed calibration
sample, `wT` the weight column of hypothesis `t`, `wRef` the weight
column of the reference hypothesis `theta1`.  Returns
`(X_calibration_both, y_calibration, w_calibration)`. -/
def buildCalibrationMixture (xCal : List (List ℚ)) (wT wRef : List ℚ) :
    List (List ℚ) × List ℚ × List ℚ :=
  (xCal ++ xCal,
   List.replicate xCal.length 0 ++ List.replicate xCal.length 1,
   wT ++ wRef)

/-! ## Neyman toy evaluation loops (claims C1, C2)

point_by_point.py guards the evaluation of the observed Neyman sample
with `if decide_toy_evaluation(settings.theta_observed, t):` (line 166 in
the regression branch, line 309 in the carl branch), and loops over
candidate hypotheses `tt in range(settings.n_thetas)` (lines 176-198 and
329-360), skipping combinations for which `decide_toy_evaluation(tt, t)`
is false.  In the skip branch (lines 179-183 and 332-336) a NaN
placeholder row of length `settings.n_neyman_distribution_experiments`
is appended to `llr_neyman_distributions` and the iteration `continue`s;
in the carl branch nothing is appended to
`llr_neyman_distributions_calibrated` in that case.  The per-toy LLR
rows produced in the evaluated case are abstracted as functions
`rawRow, calRow : ℕ → List ℚ` of the candidate index `tt` (they are the
reshaped `-2 * sum(log r)` sums, whose values do not matter for the
shape claims), and a row entry is `Option ℚ` with `none` as the NaN
sentinel. -/

/-- Modelled from the spec: the selection predicate
`decide_toy_evaluation` (higgs_inference/various/utils.py, not under
src/).  The spec fixes that it is a deterministic pure function of the
two hypothesis indices, that it is true whenever the first index is the
distinguished observed hypothesis, and that it skips some combinations
to bound the O(n_thetas^2) cost; we model it as evaluating the observed
hypothesis and the diagonal and skipping everything else.
`thetaObs` stands for the configured constant `settings.theta_observed`. -/
def decide_toy_evaluation (thetaObs tt t : ℕ) : Bool :=
  tt == thetaObs || tt == t

/-- Embedding of the guard on the observed-sample evaluation
(point_by_point.py lines 166 and 309):
`if decide_toy_evaluation(settings.theta_observed, t):`.  The observed
Neyman sample is scored against the hypothesis-`t` estimator exactly
when the predicate `d` holds at `(theta_observed, t)`. -/
def pbpObservedEvaluated (d : ℕ → ℕ → Bool) (thetaObs t : ℕ) : Bool :=
  d thetaObs t

/-- Embedding of the carl-branch Neyman distribution loop body over a
list of candidate indices (point_by_point.py lines 326-360): for each
`tt`, if `decide_toy_evaluation(tt, t)` is false a NaN placeholder row of
length `nExp = settings.n_neyman_distribution_experiments` is appended to
the raw series only (lines 332-336, then `continue`); otherwise the raw
and calibrated per-toy LLR rows are appended to their series
(lines 344-352). -/
def carlNeymanLoop (d : ℕ → ℕ → Bool) (t nExp : ℕ) (rawRow calRow : ℕ → List ℚ) :
    List ℕ → List (List (Option ℚ)) × List (List (Option ℚ))
  | [] => ([], [])
  | tt :: rest =>
    let prev := carlNeymanLoop d t nExp rawRow calRow rest
    if d tt t then
      ((rawRow tt).map some :: prev.1, (calRow tt).map some :: prev.2)
    else
      (List.replicate nExp (none : Option ℚ) :: prev.1, prev.2)

/-- The carl-branch per-`t` Neyman outputs
`(llr_neyman_distributions, llr_neyman_distributions_calibrated)` after
the loop `for tt in range(settings.n_thetas)` (point_by_point.py
lines 326-360). -/
def carlNeymanOutputs (d : ℕ → ℕ → Bool) (t nThetas nExp : ℕ)
    (rawRow calRow : ℕ → List ℚ) :
    List (List (Option ℚ)) × List (List (Option ℚ)) :=
  carlNeymanLoop d t nExp rawRow calRow (List.range nThetas)

/-- Embedding of the regression-branch Neyman distribution loop body
(point_by_point.py lines 174-198): identical to the carl branch but with
only the raw series. -/
def regressionNeymanLoop (d : ℕ → ℕ → Bool) (t nExp : ℕ) (rawRow : ℕ → List ℚ) :
    List ℕ → List (List (Option ℚ))
  | [] => []
  | tt :: rest =>
    (if d tt t then (rawRow tt).map some else List.replicate nExp none)
      :: regressionNeymanLoop d t nExp rawRow rest

/-- The regression-branch per-`t` Neyman output
`llr_neyman_distributions` after the loop
`for tt in range(settings.n_thetas)` (point_by_point.py lines 174-198). -/
def regressionNeymanOutputs (d : ℕ → ℕ → Bool) (t nThetas nExp : ℕ)
    (rawRow : ℕ → List ℚ) : List (List (Option ℚ)) :=
  regressionNeymanLoop d t nExp rawRow (List.range nThetas)

/-! ## Training-time finiteness checks (claim C6) -/

/-- A Python exception surfaced by the embedded pipeline code. -/
inductive PyError where
  | assertionErr : PyError
  | typeErr : PyError
  | valueErr : List ℕ → PyError
  deriving DecidableEq, Repr

/-- Embedding of the regression-branch checks between data loading and
`regr.fit` (point_by_point.py lines 127-145):
`assert np.all(np.isfinite(np.log(r_train)))` (line 127), then scaling,
then `assert np.all(np.isfinite(X_train_transformed))` and
`assert np.all(np.isfinite(X_test_transformed))` (lines 137-138).  The
transformed features are taken as inputs (the scaler itself is an
external collaborator); a failed assert raises `AssertionError`, success
reaches the fit with the training inputs. -/
noncomputable def regressionTrainingChecks (rTrain xTrainT xTestT : List NpVal) :
    Except PyError (List NpVal) :=
  if (rTrain.map npLog).all Option.isSome then
    if npAllFinite xTrainT then
      if npAllFinite xTestT then
        Except.ok xTrainT
      else Except.error PyError.assertionErr
    else Except.error PyError.assertionErr
  else Except.error PyError.assertionErr

/-- Embedding of the carl branch between data loading and `clf.fit`
(point_by_point.py lines 228-249): the branch scales the data and fits
directly; no assertion of any kind appears, so the fit is reached with
the (possibly non-finite) transformed features unconditionally. -/
def carlTrainingChecks (xTrainT : List NpVal) (yTrain : List ℚ) :
    Except PyError (List NpVal × List ℚ) :=
  Except.ok (xTrainT, yTrain)

/-! ## Regression-branch evaluation step (claim C9) -/

/-- Embedding of the regression-branch evaluation of the test sample
(point_by_point.py lines 151-157): `this_r = np.exp(prediction)`; if the
prediction contains non-finite entries a warning is logged
(`logging.warning`, line 155) and execution continues; the value
`-2 * n_expected_events / n_events_test * np.sum(np.log(this_r))` is
appended to `expected_llr` (line 157).  Returns
`(warning logged, appended value)`. -/
noncomputable def regressionEvalStep (nExp nTest : ℝ) (prediction : List NpVal) :
    Bool × NpVal :=
  (! npAllFinite prediction,
   npScaleMul (-2 * nExp / nTest) (npSum ((prediction.map npExp).map npLog)))

/-! ## CLI dispatch of point-by-point mode (claim C7) -/

/-- The algorithm name passed for the carl pipeline. -/
def carlName : String := "carl"

/-- The algorithm name passed for the regression pipeline. -/
def regressionName : String := "regression"

/-- The parameter names of `point_by_point_inference`
(point_by_point.py lines 24-25):
`def point_by_point_inference(algorithm='carl', options='')`. -/
def pbpParamNames : List String := ["algorithm", "options"]

/-- The keyword arguments used by the dispatcher call
(experiments.py lines 133-136):
`point_by_point_inference(algorithm=..., use_smearing=..., do_neyman=..., options=...)`. -/
def dispatcherPbpKwargs : List String := ["algorithm", "use_smearing", "do_neyman", "options"]

/-- Python call semantics for keyword arguments: every keyword must name
a parameter of the callee's signature; an unexpected keyword raises
`TypeError` before the function body runs. -/
def pythonKwargsAccepted (params kwargs : List String) : Bool :=
  kwargs.all (fun k => params.contains k)

/-- A Python call with keyword arguments: argument binding happens first;
only if every keyword is accepted does the function body run. -/
def pythonCall (params kwargs : List String) (body : Except PyError Unit) :
    Except PyError Unit :=
  if pythonKwargsAccepted params kwargs then body else Except.error PyError.typeErr

/-- Embedding of the dispatcher branch `elif args.pointbypoint:`
(experiments.py lines 131-136), which calls `point_by_point_inference`
with the keywords `algorithm`, `use_smearing`, `do_neyman`, `options`
against the signature of point_by_point.py lines 24-25.  `body` stands
for the whole training-and-evaluation body of
`point_by_point_inference`; `alg` is the algorithm string (its value
does not enter argument binding). -/
def dispatchPointByPoint (_alg : String) (body : Except PyError Unit) :
    Except PyError Unit :=
  pythonCall pbpParamNames dispatcherPbpKwargs body

/-! ## Histogram binning (claims C5, C8)

histograms.py lines 62-115 run for `binning == 'optimized' or binning ==
'adaptive'`: hand-tuned pT edge arrays and `np.linspace(0, pi, n)`
delta-phi edges are selected by the granularity flags, then the
requested observable combination `indices_X` picks the edge tuple;
anything outside `[1, 41]`, `[41, 1]`, `[1]`, `[41]` raises
`ValueError(indices_X)` (line 115).  The pT edge arrays are exact
decimal literals, transcribed over `ℚ`; delta-phi edges contain `pi`
and live over `ℝ`. -/

/-- histograms.py lines 65-67: the default 20-bin pT edges. -/
def binsPtDefault : List ℚ :=
  [0, 48, 58, 67, 75, 83, 91, 100, 109, 119, 130, 141, 155, 172, 193, 221, 260, 325, 462,
   14000]

/-- histograms.py lines 71-79: the superfine 80-bin pT edges. -/
def binsPtSuperfine : List ℚ :=
  [0, 35, 40, 44, 47, 50, 53, 55, 58,
   60, 62, 64, 66, 68, 70, 72, 74, 76,
   78, 80, 82, 84, 86, 88, 90, 92, 94,
   95, 97, 100, 102, 104, 106, 108, 110, 113,
   115, 118, 120, 123, 125, 128, 131, 134, 137,
   139, 142, 145, 149, 152, 156, 159, 163, 167,
   172, 176, 181, 186, 192, 197, 203, 210, 218,
   225, 235, 244, 255, 266, 280, 294, 311, 331,
   355, 385, 424, 470, 539, 657, 872, 14000]

/-- histograms.py lines 83-87: the fine 40-bin pT edges. -/
def binsPtFine : List ℚ :=
  [0, 40, 47, 53, 58, 62, 67, 70, 74,
   78, 82, 86, 90, 94, 98, 103, 107, 111,
   116, 122, 127, 132, 138, 144, 151, 158, 166,
   174, 184, 196, 209, 224, 242, 264, 292, 329,
   382, 468, 654, 14000]

/-- histograms.py line 91: the rough 10-bin pT edges. -/
def binsPtRough : List ℚ :=
  [0, 59, 77, 94, 113, 136, 166, 213, 315, 14000]

/-- histograms.py lines 101-105: the 40-bin pT edges of the 1-D pT
histogram (same literal as the fine 2-D edges). -/
def binsPt1d : List ℚ :=
  [0, 40, 47, 53, 58, 62, 67, 70, 74,
   78, 82, 86, 90, 94, 98, 103, 107, 111,
   116, 122, 127, 132, 138, 144, 151, 158, 166,
   174, 184, 196, 209, 224, 242, 264, 292, 329,
   382, 468, 654, 14000]

/-- Embedding of `np.linspace(a, b, n)`: `n` evenly spaced values from
`a` to `b` inclusive. -/
noncomputable def np_linspace (a b : ℝ) (n : ℕ) : List ℝ :=
  (List.range n).map (fun i : ℕ => a + (b - a) * (i : ℝ) / ((n : ℝ) - 1))

/-- Embedding of the adaptive-binning edge adjustment (histograms.py
lines 232-234, 236-238, 245-247, 253-255): the percentile-derived edge
array `p` has its first entry overwritten with the physical minimum `lo`
(`bins[0] = lo`) and its last entry with the physical maximum `hi`
(`bins[-1] = hi`). -/
def adaptiveEdges (p : List ℝ) (lo hi : ℝ) : List ℝ :=
  (p.set 0 lo).set (p.length - 1) hi

/-- The bin payload carried by the `bins` variable of histograms.py: in
the optimized/adaptive modes a tuple of per-dimension edge arrays
(pT edges over `ℚ`, delta-phi edges over `ℝ`); otherwise the binning
string is passed through unchanged. -/
inductive HistoBins where
  | ptOnly : List ℚ → HistoBins
  | dphiOnly : List ℝ → HistoBins
  | ptDphi : List ℚ → List ℝ → HistoBins
  | dphiPt : List ℝ → List ℚ → HistoBins
  | named : String → HistoBins

/-- The binning mode string selecting fixed hand-tuned bins. -/
def optimizedName : String := "optimized"

/-- The binning mode string selecting percentile-based bins. -/
def adaptiveName : String := "adaptive"

/-- Embedding of the bin-selection block of histograms.py lines 62-115.
For `binning` equal to `'optimized'` or `'adaptive'`, the granularity
flags pick the pT and delta-phi edge sets (lines 65-92) and the
requested `indices_X` picks the edge tuple (lines 94-115); an
unsupported `indices_X` raises `ValueError(indices_X)` (line 115).  For
any other `binning` the string is passed through as the `bins` value. -/
noncomputable def histoBinsSetup (indicesX : List ℕ) (binning : String)
    (roughB fineB superB : Bool) : Except PyError HistoBins :=
  if binning = optimizedName ∨ binning = adaptiveName then
    let binsPt :=
      if superB then binsPtSuperfine
      else if fineB then binsPtFine
      else if roughB then binsPtRough
      else binsPtDefault
    let binsDphi :=
      if superB then np_linspace 0 Real.pi 16
      else if fineB then np_linspace 0 Real.pi 13
      else if roughB then np_linspace 0 Real.pi 7
      else np_linspace 0 Real.pi 11
    if indicesX.length = 2 ∧ indicesX = [1, 41] then
      Except.ok (HistoBins.ptDphi binsPt binsDphi)
    else if indicesX.length = 2 ∧ indicesX = [41, 1] then
      Except.ok (HistoBins.dphiPt binsDphi binsPt)
    else if indicesX.length = 1 ∧ indicesX = [1] then
      Except.ok (HistoBins.ptOnly binsPt1d)
    else if indicesX.length = 1 ∧ indicesX = [41] then
      Except.ok (HistoBins.dphiOnly (np_linspace 0 Real.pi 21))
    else
      Except.error (PyError.valueErr indicesX)
  else
    Except.ok (HistoBins.named binning)

/-- The histo_inference run up to the first histogram fit: the bin-selection
block of lines 62-115 runs before any data is loaded or any histogram is
fitted, so the whole run is the setup result bound to the rest of the
pipeline (`rest` covers everything from data loading through
`histogram.fit` and evaluation). -/
noncomputable def histoInferenceRun (indicesX : List ℕ) (binning : String)
    (roughB fineB superB : Bool) (rest : HistoBins → Except PyError Unit) :
    Except PyError Unit :=
  (histoBinsSetup indicesX binning roughB fineB superB).bind rest

/-! ## Piecewise-linear interpolation (claim C10)

point_by_point.py lines 204-205 and 367-376 build
`LinearNDInterpolator(settings.thetas[settings.pbp_training_thetas], expected_llr)`
and query it on the full grid `settings.thetas`.  `LinearNDInterpolator`
is scipy (not repository code); it is modelled from the spec: a
piecewise-linear interpolant over a triangulation of the training
coordinates that is exact at the data points, finite on the triangulated
convex hull, and NaN outside.  Coordinates and values are over `ℚ`
(exact stand-in for the float arithmetic; the spec's "up to
floating-point tolerance" becomes exact equality).  The triangulation is
an explicit argument (scipy computes a Delaunay triangulation
internally); its defining properties are hypotheses of the theorems. -/

/-- A theta coordinate in the 2-D EFT-coupling plane. -/
abbrev Theta2 := ℚ × ℚ

/-- Twice the signed area of the triangle `(p, q, r)`. -/
def det2 (p q r : Theta2) : ℚ :=
  (q.1 - p.1) * (r.2 - p.2) - (r.1 - p.1) * (q.2 - p.2)

/-- Whether `x` lies in the (closed) triangle `(a, b, c)`: all three
sub-triangle orientations agree with the triangle's orientation. -/
def triangleContains (a b c x : Theta2) : Bool :=
  (0 ≤ det2 b c x && 0 ≤ det2 c a x && 0 ≤ det2 a b x) ||
  (det2 b c x ≤ 0 && det2 c a x ≤ 0 && det2 a b x ≤ 0)

/-- The barycentric linear combination of the vertex values of the
triangle with vertices/values `a`, `b`, `c` at the query point `x`. -/
def baryCombo (a b c : Theta2 × ℚ) (x : Theta2) : ℚ :=
  det2 b.1 c.1 x / det2 a.1 b.1 c.1 * a.2 +
  det2 c.1 a.1 x / det2 a.1 b.1 c.1 * b.2 +
  det2 a.1 b.1 x / det2 a.1 b.1 c.1 * c.2

/-- Whether the index triangle `T` of the triangulation has all three
vertex indices in range and contains the query point `x`. -/
def triFinds (pts : List (Theta2 × ℚ)) (T : ℕ × ℕ × ℕ) (x : Theta2) : Bool :=
  match pts[T.1]?, pts[T.2.1]?, pts[T.2.2]? with
  | some a, some b, some c => triangleContains a.1 b.1 c.1 x
  | _, _, _ => false

/-- Modelled from the spec: the piecewise-linear interpolant
(`scipy.interpolate.LinearNDInterpolator`, external to the repository)
over the data points `pts` (training-theta coordinates with their metric
values) and a triangulation `tris` of index triangles.  A query inside
some triangle is answered by the barycentric linear combination of that
triangle's vertex values; a query outside every triangle (outside the
triangulated convex hull) yields the NaN sentinel `none`. -/
def interpolateLinearND (pts : List (Theta2 × ℚ)) (tris : List (ℕ × ℕ × ℕ))
    (x : Theta2) : Option ℚ :=
  match (tris.find? (fun T => triFinds pts T x)) with
  | none => none
  | some T =>
    match pts[T.1]?, pts[T.2.1]?, pts[T.2.2]? with
    | some a, some b, some c =>
      if det2 a.1 b.1 c.1 = 0 then none
      else some (baryCombo a b c x)
    | _, _, _ => none

/-- A concrete 4-point training grid (coordinates with metric values)
used to exhibit the interpolator properties on explicit data. -/
def demoGrid : List (Theta2 × ℚ) :=
  [((0, 0), 10), ((1, 0), 20), ((0, 1), 30), ((1, 1), 40)]

/-- A triangulation of the convex hull of `demoGrid` (two triangles of
the unit square). -/
def demoTriangulation : List (ℕ × ℕ × ℕ) := [(0, 1, 2), (1, 3, 2)]

/-! # Theorems -/

/-- C3: in every training iteration of the histogram, regression, and
carl pipelines, the expected LLR value appended to the metric series
equals `-2 * n_expected_events / n_events_test * sum(log r_hat_test)`,
where `r_hat_test` is the pipeline's estimated ratio on the test sample
(`r_from_s(s_hat_test)` for the histogram pipeline, `exp(prediction)`
for the regression pipeline, the carl ratio for the carl pipeline); in
the regression pipeline the appended value moreover collapses to
`-2 * n_expected_events / n_events_test * sum(prediction)`. -/
theorem expected_llr_same_formula (eps nExp nTest : ℝ)
    (sHatTest prediction thisR : List ℝ) :
    histoExpectedLLR eps nExp nTest sHatTest
      = expectedLLRFormula nExp nTest (sHatTest.map (rFromS eps)) ∧
    regressionExpectedLLR nExp nTest prediction
      = expectedLLRFormula nExp nTest (prediction.map Real.exp) ∧
    carlExpectedLLR nExp nTest thisR = expectedLLRFormula nExp nTest thisR ∧
    regressionExpectedLLR nExp nTest prediction
      = -2 * nExp / nTest * prediction.sum := by
  refine ⟨?_, rfl, rfl, ?_⟩
  · simp [histoExpectedLLR, expectedLLRFormula, List.map_map, Function.comp_def]
  · simp [regressionExpectedLLR, List.map_map, Function.comp_def, Real.log_exp]

/-- C4: the calibration mixture built in the carl pipeline from a
calibration sample of `N` rows has exactly `2N` feature rows, labels and
weights: the first `N` rows are the transformed calibration sample
labeled 0 and weighted by the hypothesis-`t` weight column, the last `N`
rows are an identical copy labeled 1 and weighted by the reference
(`theta1`) weight column. -/
theorem calibration_mixture_shape (xCal : List (List ℚ)) (wT wRef : List ℚ)
    (hT : wT.length = xCal.length) (hR : wRef.length = xCal.length) :
    (buildCalibrationMixture xCal wT wRef).1.length = 2 * xCal.length ∧
    (buildCalibrationMixture xCal wT wRef).2.1.length = 2 * xCal.length ∧
    (buildCalibrationMixture xCal wT wRef).2.2.length = 2 * xCal.length ∧
    (buildCalibrationMixture xCal wT wRef).1.take xCal.length = xCal ∧
    (buildCalibrationMixture xCal wT wRef).1.drop xCal.length = xCal ∧
    (buildCalibrationMixture xCal wT wRef).2.1.take xCal.length
      = List.replicate xCal.length (0 : ℚ) ∧
    (buildCalibrationMixture xCal wT wRef).2.1.drop xCal.length
      = List.replicate xCal.length (1 : ℚ) ∧
    (buildCalibrationMixture xCal wT wRef).2.2.take xCal.length = wT ∧
    (buildCalibrationMixture xCal wT wRef).2.2.drop xCal.length = wRef := by
  unfold buildCalibrationMixture
  refine ⟨by simp [two_mul], by simp [two_mul], by simp [two_mul, hT, hR], ?_, ?_, ?_, ?_, ?_, ?_⟩
  · exact List.take_left xCal xCal
  · exact List.drop_left xCal xCal
  · simp
  · simp
  · have := List.take_left wT wRef
    rwa [hT] at this
  · have := List.drop_left wT wRef
    rwa [hT] at this

/-- Witness for `calibration_mixture_shape` at a concrete 2-row
calibration sample. -/
theorem calibration_mixture_shape_witness :
    ([(3 : ℚ), 4].length = [[(1 : ℚ)], [2]].length ∧
      [(5 : ℚ), 6].length = [[(1 : ℚ)], [2]].length) ∧
    (buildCalibrationMixture [[(1 : ℚ)], [2]] [3, 4] [5, 6]).1.length
      = 2 * [[(1 : ℚ)], [2]].length :=
  ⟨⟨rfl, rfl⟩,
   (calibration_mixture_shape [[(1 : ℚ)], [2]] [3, 4] [5, 6] rfl rfl).1⟩

/-- C7: the CLI dispatcher invokes `point_by_point_inference` with the
keyword arguments `use_smearing` and `do_neyman`, which are not
parameters of its signature `(algorithm, options)`, so for the
point-by-point modes with algorithm carl or regression the invocation
raises `TypeError` during argument binding, before any of the function
body (training or evaluation) runs. -/
theorem pbp_dispatch_unexpected_keyword (alg : String) (body : Except PyError Unit)
    (_h : alg = carlName ∨ alg = regressionName) :
    dispatchPointByPoint alg body = Except.error PyError.typeErr := by
  have hacc : pythonKwargsAccepted pbpParamNames dispatcherPbpKwargs = false := by decide
  simp [dispatchPointByPoint, pythonCall, hacc]

/-- Witness for `pbp_dispatch_unexpected_keyword` at algorithm carl, for
an arbitrary concrete body. -/
theorem pbp_dispatch_unexpected_keyword_witness :
    (carlName = carlName ∨ carlName = regressionName) ∧
    dispatchPointByPoint carlName (Except.ok ()) = Except.error PyError.typeErr :=
  ⟨Or.inl rfl,
   pbp_dispatch_unexpected_keyword carlName (Except.ok ()) (Or.inl rfl)⟩

/-- C8: with binning mode optimized or adaptive, any requested
observable-index list outside the closed supported set
`[[1], [41], [1, 41], [41, 1]]` makes `histo_inference` raise
`ValueError(indices_X)` in the bin-selection block, hence before any
histogram is fitted (for every continuation of the pipeline the run
stops with that error). -/
theorem histo_unsupported_indices_error (indicesX : List ℕ) (binning : String)
    (roughB fineB superB : Bool)
    (hmode : binning = optimizedName ∨ binning = adaptiveName)
    (hunsupported : indicesX ∉ [[1], [41], [1, 41], [41, 1]]) :
    histoBinsSetup indicesX binning roughB fineB superB
      = Except.error (PyError.valueErr indicesX) ∧
    ∀ rest, histoInferenceRun indicesX binning roughB fineB superB rest
      = Except.error (PyError.valueErr indicesX) := by
  simp only [List.mem_cons, List.mem_singleton, not_or] at hunsupported
  obtain ⟨h1, h41, h141, h411, -⟩ := hunsupported
  have hsetup : histoBinsSetup indicesX binning roughB fineB superB
      = Except.error (PyError.valueErr indicesX) := by
    unfold histoBinsSetup
    rw [if_pos hmode]
    simp [h1, h41, h141, h411]
  refine ⟨hsetup, fun rest => ?_⟩
  unfold histoInferenceRun
  rw [hsetup]
  rfl

/-- Witness for `histo_unsupported_indices_error` at the unsupported
request `indices_X = [2]` in adaptive mode. -/
theorem histo_unsupported_indices_error_witness :
    ((adaptiveName = optimizedName ∨ adaptiveName = adaptiveName) ∧
      [2] ∉ [[1], [41], [1, 41], [41, 1]]) ∧
    histoBinsSetup [2] adaptiveName false false false
      = Except.error (PyError.valueErr [2]) :=
  ⟨⟨Or.inr rfl, by decide⟩,
   (histo_unsupported_indices_error [2] adaptiveName false false false
      (Or.inr rfl) (by decide)).1⟩

/-- C9: in the regression pipeline, whenever the fitted regressor's
prediction on the test sample contains a non-finite value, the warning
flag is raised (a warning is logged) and the appended expected-LLR value
is itself non-finite — the non-finiteness propagates into the metric
series and the evaluation step completes instead of aborting. -/
theorem regression_nonfinite_prediction_warns (nExp nTest : ℝ)
    (prediction : List NpVal) (h : npAllFinite prediction = false) :
    (regressionEvalStep nExp nTest prediction).1 = true ∧
    (regressionEvalStep nExp nTest prediction).2 = none := by
  constructor
  · simp [regressionEvalStep, h]
  · have hmem : (none : NpVal) ∈ prediction := by
      obtain ⟨v, hv, hnot⟩ := List.all_eq_false.mp h
      cases v with
      | none => exact hv
      | some x => simp at hnot
    have hmem2 : (none : NpVal) ∈ (prediction.map npExp).map npLog := by
      have h1 : (none : NpVal) ∈ prediction.map npExp := by
        have := List.mem_map_of_mem npExp hmem
        simpa [npExp] using this
      have := List.mem_map_of_mem npLog h1
      simpa [npLog] using this
    have hsum : npSum ((prediction.map npExp).map npLog) = none := by
      unfold npSum
      rw [if_neg]
      simp only [List.all_eq_true, not_forall]
      exact ⟨none, hmem2, by simp⟩
    show npScaleMul _ (npSum ((prediction.map npExp).map npLog)) = none
    rw [hsum]
    rfl

/-- Witness for `regression_nonfinite_prediction_warns` at a one-event
prediction that is non-finite. -/
theorem regression_nonfinite_prediction_warns_witness :
    npAllFinite [(none : NpVal)] = false ∧
    (regressionEvalStep 1 1 [(none : NpVal)]).1 = true :=
  ⟨rfl, (regression_nonfinite_prediction_warns 1 1 [none] rfl).1⟩

/-- C6 counterexample: the carl branch fits the estimator with a
non-finite transformed training feature and raises nothing — no
assertion-style finiteness check exists between its transform and its
fit, contradicting the claim that every estimator-fitting branch
(including carl) asserts finiteness of the transformed features before
training. -/
theorem carl_branch_no_finiteness_check :
    carlTrainingChecks [(none : NpVal)] [(0 : ℚ)]
      = Except.ok ([(none : NpVal)], [(0 : ℚ)]) ∧
    npAllFinite [(none : NpVal)] = false :=
  ⟨rfl, rfl⟩

/-- C6 amended: the regression branch asserts, before fitting, that
`log(r_train)` and the transformed training and test features are
finite, and aborts with `AssertionError` exactly when one of these
checks fails; the carl branch reaches its fit unconditionally, with no
finiteness assertion at all. -/
theorem training_finiteness_checks (rTrain xTrainT xTestT : List NpVal)
    (yTrain : List ℚ) :
    (regressionTrainingChecks rTrain xTrainT xTestT = Except.error PyError.assertionErr
      ↔ ¬((rTrain.map npLog).all Option.isSome = true ∧
          npAllFinite xTrainT = true ∧ npAllFinite xTestT = true)) ∧
    (regressionTrainingChecks rTrain xTrainT xTestT = Except.ok xTrainT
      ↔ ((rTrain.map npLog).all Option.isSome = true ∧
          npAllFinite xTrainT = true ∧ npAllFinite xTestT = true)) ∧
    carlTrainingChecks xTrainT yTrain = Except.ok (xTrainT, yTrain) := by
  unfold regressionTrainingChecks
  refine ⟨?_, ?_, rfl⟩ <;>
    cases h1 : (rTrain.map npLog).all Option.isSome <;>
    cases h2 : npAllFinite xTrainT <;>
    cases h3 : npAllFinite xTestT <;>
    simp [h1, h2, h3]

/-- C2 counterexample: the observed-sample Neyman evaluation in
point_by_point.py is guarded by the selection predicate; with a
predicate that is false at `(theta_observed, t)` the observed sample is
not evaluated for that `t`, so the evaluation does depend on the
predicate's value. -/
theorem observed_evaluation_depends_on_predicate :
    pbpObservedEvaluated (fun _ _ => false) 0 0 = false :=
  rfl

/-- C2 amended: for every trained hypothesis `t`, the observed Neyman
sample is evaluated exactly when `decide_toy_evaluation(theta_observed, t)`
holds — the predicate is consulted, not bypassed — and since the spec's
predicate is true whenever its first argument is the observed
hypothesis, under that predicate the observed sample is indeed evaluated
for every `t`. -/
theorem observed_evaluation_guarded (d : ℕ → ℕ → Bool) (thetaObs t : ℕ) :
    pbpObservedEvaluated d thetaObs t = d thetaObs t ∧
    pbpObservedEvaluated (decide_toy_evaluation thetaObs) thetaObs t = true := by
  refine ⟨rfl, ?_⟩
  simp [pbpObservedEvaluated, decide_toy_evaluation]

/-- The raw Neyman series produced by the carl loop is one row per
candidate index: the per-toy LLR row where the predicate selects the
combination, a NaN placeholder row where it skips it. -/
theorem carlNeymanLoop_fst (d : ℕ → ℕ → Bool) (t nExp : ℕ)
    (rawRow calRow : ℕ → List ℚ) (l : List ℕ) :
    (carlNeymanLoop d t nExp rawRow calRow l).1
      = l.map (fun tt => if d tt t then (rawRow tt).map some
          else List.replicate nExp none) := by
  induction l with
  | nil => rfl
  | cons tt rest ih =>
    cases h : d tt t <;> simp [carlNeymanLoop, h, ih]

/-- The calibrated Neyman series produced by the carl loop only receives
rows for the selected combinations. -/
theorem carlNeymanLoop_snd (d : ℕ → ℕ → Bool) (t nExp : ℕ)
    (rawRow calRow : ℕ → List ℚ) (l : List ℕ) :
    (carlNeymanLoop d t nExp rawRow calRow l).2
      = (l.filter (fun tt => d tt t)).map (fun tt => (calRow tt).map some) := by
  induction l with
  | nil => rfl
  | cons tt rest ih =>
    cases h : d tt t <;> simp [carlNeymanLoop, List.filter_cons, h, ih]

/-- The regression-branch Neyman series is one row per candidate index,
with NaN placeholder rows at skipped combinations. -/
theorem regressionNeymanLoop_eq (d : ℕ → ℕ → Bool) (t nExp : ℕ)
    (rawRow : ℕ → List ℚ) (l : List ℕ) :
    regressionNeymanLoop d t nExp rawRow l
      = l.map (fun tt => if d tt t then (rawRow tt).map some
          else List.replicate nExp none) := by
  induction l with
  | nil => rfl
  | cons tt rest ih =>
    simp [regressionNeymanLoop, ih]

/-- C1 counterexample: with the spec's selection predicate (observed
hypothesis 0), trained hypothesis `t = 1` and `n_thetas = 3`, the
combination `tt = 2` is skipped, and the calibrated Neyman series ends
up with 2 rows instead of `n_thetas = 3` — the skip branch of the carl
loop appends the NaN placeholder only to the raw series and `continue`s
without appending anything to the calibrated one. -/
theorem neyman_calibrated_series_missing_rows :
    ((carlNeymanOutputs (decide_toy_evaluation 0) 1 3 4
        (fun _ => [0, 0, 0, 0]) (fun _ => [0, 0, 0, 0])).2).length = 2 ∧
    (2 : ℕ) ≠ 3 := by
  constructor
  · rfl
  · decide

/-- C1 amended: for every trained hypothesis `t`, the raw Neyman series
(of both the regression and the carl branch) has exactly `n_thetas`
rows, each of length equal to the configured number of toy experiments,
with every skipped `(t, tt)` combination filled by a same-shaped NaN
row; the calibrated series, however, contains only the rows of the
selected combinations, in candidate order, with no NaN fill (its length
is the number of selected combinations). -/
theorem neyman_output_shape (d : ℕ → ℕ → Bool) (t nThetas nExp : ℕ)
    (rawRow calRow : ℕ → List ℚ)
    (hraw : ∀ tt, (rawRow tt).length = nExp) :
    (carlNeymanOutputs d t nThetas nExp rawRow calRow).1.length = nThetas ∧
    (∀ row ∈ (carlNeymanOutputs d t nThetas nExp rawRow calRow).1,
      row.length = nExp) ∧
    (∀ tt, tt < nThetas → d tt t = false →
      (carlNeymanOutputs d t nThetas nExp rawRow calRow).1[tt]?
        = some (List.replicate nExp none)) ∧
    (∀ tt, tt < nThetas → d tt t = true →
      (carlNeymanOutputs d t nThetas nExp rawRow calRow).1[tt]?
        = some ((rawRow tt).map some)) ∧
    (carlNeymanOutputs d t nThetas nExp rawRow calRow).2
      = ((List.range nThetas).filter (fun tt => d tt t)).map
          (fun tt => (calRow tt).map some) ∧
    (regressionNeymanOutputs d t nThetas nExp rawRow).length = nThetas ∧
    (∀ row ∈ regressionNeymanOutputs d t nThetas nExp rawRow,
      row.length = nExp) ∧
    (∀ tt, tt < nThetas → d tt t = false →
      (regressionNeymanOutputs d t nThetas nExp rawRow)[tt]?
        = some (List.replicate nExp none)) := by
  have hfst := carlNeymanLoop_fst d t nExp rawRow calRow (List.range nThetas)
  have hreg := regressionNeymanLoop_eq d t nExp rawRow (List.range nThetas)
  have hrowlen : ∀ row ∈ (List.range nThetas).map
      (fun tt => if d tt t then (rawRow tt).map some
        else List.replicate nExp (none : Option ℚ)), row.length = nExp := by
    intro row hrow
    obtain ⟨tt, -, hrow⟩ := List.mem_map.mp hrow
    cases h : d tt t <;> simp [h] at hrow <;> subst hrow <;> simp [hraw]
  have hskip : ∀ tt, tt < nThetas → d tt t = false →
      ((List.range nThetas).map (fun tt => if d tt t then (rawRow tt).map some
        else List.replicate nExp (none : Option ℚ)))[tt]?
        = some (List.replicate nExp none) := by
    intro tt htt hd
    rw [List.getElem?_map, List.getElem?_range htt]
    simp [hd]
  refine ⟨?_, ?_, ?_, ?_, ?_, ?_, ?_, ?_⟩
  · rw [carlNeymanOutputs, hfst]; simp
  · rw [carlNeymanOutputs, hfst]; exact hrowlen
  · intro tt htt hd
    rw [carlNeymanOutputs, hfst]
    exact hskip tt htt hd
  · intro tt htt hd
    rw [carlNeymanOutputs, hfst, List.getElem?_map, List.getElem?_range htt]
    simp [hd]
  · rw [carlNeymanOutputs, carlNeymanLoop_snd]
  · rw [regressionNeymanOutputs, hreg]; simp
  · rw [regressionNeymanOutputs, hreg]; exact hrowlen
  · intro tt htt hd
    rw [regressionNeymanOutputs, hreg]
    exact hskip tt htt hd

/-- Witness for `neyman_output_shape` with the spec's selection
predicate, two candidate hypotheses and one-toy rows. -/
theorem neyman_output_shape_witness :
    (∀ tt : ℕ, ((fun _ : ℕ => [(0 : ℚ)]) tt).length = 1) ∧
    (carlNeymanOutputs (decide_toy_evaluation 0) 0 2 1
      (fun _ => [(0 : ℚ)]) (fun _ => [(0 : ℚ)])).1.length = 2 :=
  ⟨fun _ => rfl,
   (neyman_output_shape (decide_toy_evaluation 0) 0 2 1
      (fun _ => [(0 : ℚ)]) (fun _ => [(0 : ℚ)]) (fun _ => rfl)).1⟩

/-- After the adaptive-binning overwrite, the first edge is the physical
minimum and the last edge the physical maximum, whatever the
percentile-derived interior edges were. -/
theorem adaptiveEdges_first_last (p : List ℝ) (lo hi : ℝ) (h2 : 2 ≤ p.length) :
    (adaptiveEdges p lo hi)[0]? = some lo ∧
    (adaptiveEdges p lo hi)[p.length - 1]? = some hi := by
  have hpos : 0 < p.length := by omega
  have hne : p.length - 1 ≠ 0 := by omega
  constructor
  · unfold adaptiveEdges
    rw [List.getElem?_set_ne hne, List.getElem?_set_self hpos]
  · unfold adaptiveEdges
    rw [List.getElem?_set_self]
    rw [List.length_set]
    omega

/-- The first and last entries of `np.linspace(a, b, n)` are `a` and `b`
for every `n ≥ 2`. -/
theorem np_linspace_first_last (a b : ℝ) (n : ℕ) (h2 : 2 ≤ n) :
    (np_linspace a b n).head? = some a ∧
    (np_linspace a b n).getLast? = some b := by
  have hlen : (np_linspace a b n).length = n := by
    simp [np_linspace]
  have hd : ((n : ℝ) - 1) ≠ 0 := by
    have : (2 : ℝ) ≤ (n : ℝ) := by exact_mod_cast h2
    nlinarith
  constructor
  · rw [List.head?_eq_getElem?]
    unfold np_linspace
    rw [List.getElem?_map, List.getElem?_range (by omega : 0 < n)]
    norm_num
  · rw [List.getLast?_eq_getElem?, hlen]
    unfold np_linspace
    rw [List.getElem?_map, List.getElem?_range (by omega : n - 1 < n)]
    have hcast : ((n - 1 : ℕ) : ℝ) = (n : ℝ) - 1 := by
      have h1 : 1 ≤ n := by omega
      push_cast [h1]
      ring
    simp only [Option.map_some']
    rw [hcast, mul_div_assoc, div_self hd, mul_one]
    ring_nf

/-- C5: for every supported (dimension, mode) combination the derived
bin edges cover the declared physical range.  In adaptive mode, whatever
percentile edges the training sample produced, the first edge is
overwritten to the observable's physical minimum and the last to its
physical maximum: pT edges run from 0 to 14000, delta-phi edges from
-0.1 to pi + 0.1, covering [0, pi] within the 0.1 margin.  In the fixed
(optimized) mode every hand-tuned pT edge array runs from 0 to 14000 and
every delta-phi linspace runs from 0 to pi exactly. -/
theorem derive_bins_cover_physical_range :
    (∀ p : List ℝ, 2 ≤ p.length →
      (adaptiveEdges p 0 14000)[0]? = some 0 ∧
      (adaptiveEdges p 0 14000)[p.length - 1]? = some 14000) ∧
    (∀ p : List ℝ, 2 ≤ p.length →
      (adaptiveEdges p (-0.1 : ℝ) (Real.pi + 0.1))[0]? = some (-0.1 : ℝ) ∧
      (adaptiveEdges p (-0.1 : ℝ) (Real.pi + 0.1))[p.length - 1]?
        = some (Real.pi + 0.1)) ∧
    ((-0.1 : ℝ) ≤ 0 ∧ Real.pi ≤ Real.pi + 0.1) ∧
    (binsPtDefault.head? = some 0 ∧ binsPtDefault.getLast? = some 14000) ∧
    (binsPtSuperfine.head? = some 0 ∧ binsPtSuperfine.getLast? = some 14000) ∧
    (binsPtFine.head? = some 0 ∧ binsPtFine.getLast? = some 14000) ∧
    (binsPtRough.head? = some 0 ∧ binsPtRough.getLast? = some 14000) ∧
    (binsPt1d.head? = some 0 ∧ binsPt1d.getLast? = some 14000) ∧
    (∀ n : ℕ, 2 ≤ n →
      (np_linspace 0 Real.pi n).head? = some 0 ∧
      (np_linspace 0 Real.pi n).getLast? = some Real.pi) := by
  refine ⟨fun p h2 => adaptiveEdges_first_last p 0 14000 h2,
          fun p h2 => adaptiveEdges_first_last p (-0.1 : ℝ) (Real.pi + 0.1) h2,
          ⟨by norm_num, by norm_num⟩,
          ⟨rfl, rfl⟩, ⟨rfl, rfl⟩, ⟨rfl, rfl⟩, ⟨rfl, rfl⟩, ⟨rfl, rfl⟩,
          fun n h2 => np_linspace_first_last 0 Real.pi n h2⟩

/-- Witness for `derive_bins_cover_physical_range` at a concrete
two-entry percentile list and the default 11-point delta-phi linspace. -/
theorem derive_bins_cover_physical_range_witness :
    (2 ≤ [(5 : ℝ), 7].length ∧ (2 : ℕ) ≤ 11) ∧
    (adaptiveEdges [(5 : ℝ), 7] 0 14000)[0]? = some 0 ∧
    (np_linspace 0 Real.pi 11).head? = some 0 :=
  ⟨⟨by decide, by decide⟩,
   (derive_bins_cover_physical_range.1 [(5 : ℝ), 7] (by decide)).1,
   ((derive_bins_cover_physical_range.2.2.2.2.2.2.2.2) 11 (by decide)).1⟩

/-- The barycentric combination at the first vertex of a nondegenerate
triangle is exactly that vertex's value. -/
theorem baryCombo_vertex_a (a b c : Theta2 × ℚ) (hD : det2 a.1 b.1 c.1 ≠ 0) :
    baryCombo a b c a.1 = a.2 := by
  have h1 : det2 b.1 c.1 a.1 = det2 a.1 b.1 c.1 := by unfold det2; ring
  have h2 : det2 c.1 a.1 a.1 = 0 := by unfold det2; ring
  have h3 : det2 a.1 b.1 a.1 = 0 := by unfold det2; ring
  unfold baryCombo
  rw [h1, h2, h3, div_self hD]
  simp

/-- The barycentric combination at the second vertex of a nondegenerate
triangle is exactly that vertex's value. -/
theorem baryCombo_vertex_b (a b c : Theta2 × ℚ) (hD : det2 a.1 b.1 c.1 ≠ 0) :
    baryCombo a b c b.1 = b.2 := by
  have h1 : det2 b.1 c.1 b.1 = 0 := by unfold det2; ring
  have h2 : det2 c.1 a.1 b.1 = det2 a.1 b.1 c.1 := by unfold det2; ring
  have h3 : det2 a.1 b.1 b.1 = 0 := by unfold det2; ring
  unfold baryCombo
  rw [h1, h2, h3, div_self hD]
  simp

/-- The barycentric combination at the third vertex of a nondegenerate
triangle is exactly that vertex's value. -/
theorem baryCombo_vertex_c (a b c : Theta2 × ℚ) (hD : det2 a.1 b.1 c.1 ≠ 0) :
    baryCombo a b c c.1 = c.2 := by
  have h1 : det2 b.1 c.1 c.1 = 0 := by unfold det2; ring
  have h2 : det2 c.1 a.1 c.1 = 0 := by unfold det2; ring
  unfold baryCombo
  rw [h1, h2, div_self hD]
  simp

/-- A triangle is found for a query exactly when its three vertex
indices resolve and the resolved triangle contains the query. -/
theorem triFinds_iff (pts : List (Theta2 × ℚ)) (T : ℕ × ℕ × ℕ) (x : Theta2) :
    triFinds pts T x = true ↔
      ∃ a b c, pts[T.1]? = some a ∧ pts[T.2.1]? = some b ∧
        pts[T.2.2]? = some c ∧ triangleContains a.1 b.1 c.1 x = true := by
  unfold triFinds
  cases h1 : pts[T.1]? <;> cases h2 : pts[T.2.1]? <;> cases h3 : pts[T.2.2]? <;> simp

/-- Unfolding equation for `interpolateLinearND` when no triangle is
found. -/
theorem interpolateLinearND_not_found (pts : List (Theta2 × ℚ))
    (tris : List (ℕ × ℕ × ℕ)) (x : Theta2)
    (hf : tris.find? (fun T => triFinds pts T x) = none) :
    interpolateLinearND pts tris x = none := by
  unfold interpolateLinearND
  rw [hf]

/-- Unfolding equation for `interpolateLinearND` when a triangle is
found. -/
theorem interpolateLinearND_found (pts : List (Theta2 × ℚ))
    (tris : List (ℕ × ℕ × ℕ)) (x : Theta2) (T : ℕ × ℕ × ℕ)
    (hf : tris.find? (fun T => triFinds pts T x) = some T) :
    interpolateLinearND pts tris x
      = match pts[T.1]?, pts[T.2.1]?, pts[T.2.2]? with
        | some a, some b, some c =>
          if det2 a.1 b.1 c.1 = 0 then none else some (baryCombo a b c x)
        | _, _, _ => none := by
  unfold interpolateLinearND
  rw [hf]

/-- Queries contained in some triangle of the triangulation receive a
value (provided the triangulation is nondegenerate). -/
theorem interpolate_isSome_inside (pts : List (Theta2 × ℚ))
    (tris : List (ℕ × ℕ × ℕ)) (x : Theta2)
    (hnondeg : ∀ T ∈ tris, ∀ a b c, pts[T.1]? = some a → pts[T.2.1]? = some b →
      pts[T.2.2]? = some c → det2 a.1 b.1 c.1 ≠ 0)
    (h : ∃ T ∈ tris, triFinds pts T x = true) :
    (interpolateLinearND pts tris x).isSome = true := by
  have hfind : ((tris.find? (fun T => triFinds pts T x)).isSome) :=
    List.find?_isSome.mpr (by simpa using h)
  cases hf : tris.find? (fun T => triFinds pts T x) with
  | none => rw [hf] at hfind; simp at hfind
  | some T =>
    have hmem := List.mem_of_find?_eq_some hf
    have hpred := List.find?_some hf
    obtain ⟨a, b, c, ha, hb, hc, -⟩ := (triFinds_iff pts T x).mp (by simpa using hpred)
    have hD := hnondeg T hmem a b c ha hb hc
    rw [interpolateLinearND_found pts tris x T hf, ha, hb, hc]
    show (if det2 a.1 b.1 c.1 = 0 then none
      else some (baryCombo a b c x)).isSome = true
    rw [if_neg hD]
    rfl

/-- Queries contained in no triangle of the triangulation (outside the
triangulated convex hull) receive the NaN sentinel. -/
theorem interpolate_none_outside (pts : List (Theta2 × ℚ))
    (tris : List (ℕ × ℕ × ℕ)) (x : Theta2)
    (h : ∀ T ∈ tris, triFinds pts T x = false) :
    interpolateLinearND pts tris x = none := by
  have hfind : tris.find? (fun T => triFinds pts T x) = none :=
    List.find?_eq_none.mpr (fun T hT => by simp [h T hT])
  exact interpolateLinearND_not_found pts tris x hfind

/-- Querying the interpolant at a data point of a proper triangulation
(nondegenerate triangles; a triangle containing a data point has it as a
vertex; coordinates determine values) returns that data point's value
whenever any value is returned at all. -/
theorem interpolate_exact_at_data_point (pts : List (Theta2 × ℚ))
    (tris : List (ℕ × ℕ × ℕ)) (p : Theta2 × ℚ) (hp : p ∈ pts)
    (hnondeg : ∀ T ∈ tris, ∀ a b c, pts[T.1]? = some a → pts[T.2.1]? = some b →
      pts[T.2.2]? = some c → det2 a.1 b.1 c.1 ≠ 0)
    (hfun : ∀ q ∈ pts, ∀ r ∈ pts, q.1 = r.1 → q.2 = r.2)
    (hvertex : ∀ T ∈ tris, ∀ a b c, pts[T.1]? = some a → pts[T.2.1]? = some b →
      pts[T.2.2]? = some c → triangleContains a.1 b.1 c.1 p.1 = true →
      (p.1 = a.1 ∨ p.1 = b.1 ∨ p.1 = c.1))
    (hsome : (interpolateLinearND pts tris p.1).isSome = true) :
    interpolateLinearND pts tris p.1 = some p.2 := by
  cases hf : tris.find? (fun T => triFinds pts T p.1) with
  | none =>
    rw [interpolateLinearND_not_found pts tris p.1 hf] at hsome
    simp at hsome
  | some T =>
    have hmem := List.mem_of_find?_eq_some hf
    have hpred := List.find?_some hf
    obtain ⟨a, b, c, ha, hb, hc, hcont⟩ :=
      (triFinds_iff pts T p.1).mp (by simpa using hpred)
    have hD := hnondeg T hmem a b c ha hb hc
    rw [interpolateLinearND_found pts tris p.1 T hf, ha, hb, hc]
    show (if det2 a.1 b.1 c.1 = 0 then none
      else some (baryCombo a b c p.1)) = some p.2
    have hval : baryCombo a b c p.1 = p.2 := by
      rcases hvertex T hmem a b c ha hb hc hcont with hx | hx | hx
      · rw [hx, baryCombo_vertex_a a b c hD]
        exact hfun a (List.getElem?_mem ha) p hp (hx.symm)
      · rw [hx, baryCombo_vertex_b a b c hD]
        exact hfun b (List.getElem?_mem hb) p hp (hx.symm)
      · rw [hx, baryCombo_vertex_c a b c hD]
        exact hfun c (List.getElem?_mem hc) p hp (hx.symm)
    rw [if_neg hD, hval]

/-- C10: over a proper triangulation of the training-hypothesis
coordinates (nondegenerate triangles whose vertices are data points, a
triangle containing a data point only at a vertex, values a function of
coordinates), the piecewise-linear interpolant returns the original
training value when queried at a training coordinate, returns a finite
value at every query covered by the triangulated convex hull, returns
the NaN sentinel at every query outside it, and is deterministic: equal
inputs give equal outputs. -/
theorem interpolator_properties (pts : List (Theta2 × ℚ))
    (tris : List (ℕ × ℕ × ℕ))
    (hnondeg : ∀ T ∈ tris, ∀ a b c, pts[T.1]? = some a → pts[T.2.1]? = some b →
      pts[T.2.2]? = some c → det2 a.1 b.1 c.1 ≠ 0)
    (hfun : ∀ q ∈ pts, ∀ r ∈ pts, q.1 = r.1 → q.2 = r.2) :
    (∀ p ∈ pts,
      (∀ T ∈ tris, ∀ a b c, pts[T.1]? = some a → pts[T.2.1]? = some b →
        pts[T.2.2]? = some c → triangleContains a.1 b.1 c.1 p.1 = true →
        (p.1 = a.1 ∨ p.1 = b.1 ∨ p.1 = c.1)) →
      (interpolateLinearND pts tris p.1).isSome = true →
      interpolateLinearND pts tris p.1 = some p.2) ∧
    (∀ x : Theta2, (∃ T ∈ tris, triFinds pts T x = true) →
      (interpolateLinearND pts tris x).isSome = true) ∧
    (∀ x : Theta2, (∀ T ∈ tris, triFinds pts T x = false) →
      interpolateLinearND pts tris x = none) ∧
    (∀ x y : Theta2, x = y →
      interpolateLinearND pts tris x = interpolateLinearND pts tris y) := by
  refine ⟨?_, ?_, ?_, ?_⟩
  · intro p hp hvertex hsome
    exact interpolate_exact_at_data_point pts tris p hp hnondeg hfun hvertex hsome
  · intro x hx
    exact interpolate_isSome_inside pts tris x hnondeg hx
  · intro x hx
    exact interpolate_none_outside pts tris x hx
  · intro x y hxy
    rw [hxy]

/-- Witness for `interpolator_properties` on the concrete grid
`demoGrid` with triangulation `demoTriangulation`: the query at the
training coordinate `(0, 0)` returns its training value 10, and the
query at `(5, 5)`, outside the convex hull, returns the NaN sentinel. -/
theorem interpolator_properties_witness :
    interpolateLinearND demoGrid demoTriangulation (0, 0) = some 10 ∧
    interpolateLinearND demoGrid demoTriangulation (5, 5) = none := by
  have htf : triFinds demoGrid (0, 1, 2) ((0 : ℚ), (0 : ℚ)) = true := by
    show triangleContains ((0 : ℚ), (0 : ℚ)) (1, 0) (0, 1) (0, 0) = true
    norm_num [triangleContains, det2]
  have hnd : ∀ T ∈ demoTriangulation, ∀ a b c, demoGrid[T.1]? = some a →
      demoGrid[T.2.1]? = some b → demoGrid[T.2.2]? = some c →
      det2 a.1 b.1 c.1 ≠ 0 := by
    intro T hT a b c h1 h2 h3
    fin_cases hT
    · injection h1 with h1; injection h2 with h2; injection h3 with h3
      subst h1; subst h2; subst h3
      show det2 ((0 : ℚ), (0 : ℚ)) (1, 0) (0, 1) ≠ 0
      norm_num [det2]
    · injection h1 with h1; injection h2 with h2; injection h3 with h3
      subst h1; subst h2; subst h3
      show det2 ((1 : ℚ), (0 : ℚ)) (1, 1) (0, 1) ≠ 0
      norm_num [det2]
  have hfn : ∀ q ∈ demoGrid, ∀ r ∈ demoGrid, q.1 = r.1 → q.2 = r.2 := by
    intro q hq r hr
    fin_cases hq <;> fin_cases hr <;> decide
  constructor
  · refine (interpolator_properties demoGrid demoTriangulation hnd hfn).1
      ((0, 0), 10) (List.mem_cons_self _ _) ?_ ?_
    · intro T hT a b c h1 h2 h3
      fin_cases hT
      · injection h1 with h1
        subst h1
        exact fun _ => Or.inl rfl
      · injection h1 with h1; injection h2 with h2; injection h3 with h3
        subst h1; subst h2; subst h3
        intro hcont
        have hcont2 : triangleContains ((1 : ℚ), (0 : ℚ)) (1, 1) (0, 1)
            ((0 : ℚ), (0 : ℚ)) = true := hcont
        norm_num [triangleContains, det2] at hcont2
    · exact interpolate_isSome_inside demoGrid demoTriangulation (0, 0) hnd
        ⟨(0, 1, 2), by decide, htf⟩
  · refine (interpolator_properties demoGrid demoTriangulation hnd hfn).2.2.1
      (5, 5) ?_
    intro T hT
    fin_cases hT
    · show triangleContains ((0 : ℚ), (0 : ℚ)) (1, 0) (0, 1) (5, 5) = false
      norm_num [triangleContains, det2]
    · show triangleContains ((1 : ℚ), (0 : ℚ)) (1, 1) (0, 1) (5, 5) = false
      norm_num [triangleContains, det2]

end HiggsInference
